import Mathlib

/-!
Verification of the migration deployment engine in
`plugins/scripts/sec_scraper/snowflake/deploy_migrations.py`.

The Python source is shallowly embedded: pure helpers become Lean functions
on `String` / `List Char`; the Snowflake connection is an abstract statement
executor `String → Except String Unit`; the `schema_migrations` ledger table
is a map `String → Option MigRecord`; wall-clock time, the current user and
the SHA-256 checksum are abstract parameters of the environment.
-/

/-- The whitespace characters stripped by Python's `str.strip()`
(ASCII subset: space, tab, newline, carriage return, vertical tab, form feed). -/
def isStripChar (c : Char) : Bool :=
  c = ' ' || c = '\t' || c = '\n' || c = '\r' || c = '\x0B' || c = '\x0C'

/-- Python `str.strip()` on a character list: drop leading and trailing
whitespace. -/
def stripChars (l : List Char) : List Char :=
  ((l.dropWhile isStripChar).reverse.dropWhile isStripChar).reverse

/-- Python `str.replace(pat, rep)` (leftmost, non-overlapping), with explicit
fuel so the recursion is structural; the fuel is initialised to the length of
the subject, which suffices for a non-empty pattern. -/
def replaceGo (pat rep : List Char) : Nat → List Char → List Char
  | _, [] => []
  | 0, l => l
  | fuel + 1, c :: rest =>
    if pat ≠ [] ∧ pat.isPrefixOf (c :: rest) then
      rep ++ replaceGo pat rep fuel ((c :: rest).drop pat.length)
    else
      c :: replaceGo pat rep fuel rest

/-- Python `s.replace(pat, rep)` on strings. -/
def strReplace (s pat rep : String) : String :=
  String.mk (replaceGo pat.data rep.data s.data.length s.data)

/-- Python `s.split('\n')` on a character list. -/
def splitLinesGo : List Char → List (List Char)
  | [] => [[]]
  | c :: rest =>
    let r := splitLinesGo rest
    if c = '\n' then [] :: r
    else (c :: r.headD []) :: r.tail

/-- Python `'\n'.join(lines)` on character lists. -/
def joinNl : List (List Char) → List Char
  | [] => []
  | [l] => l
  | l :: ls => l ++ '\n' :: joinNl ls

/-- `SnowflakeMigrator.parse_migration_filename`: match
`^(\d{12})__(.+)\.sql$` (12-digit date+time prefix, `__`, a non-empty
description without newlines, `.sql`); on success return
`(some dateStr, description)`, otherwise `(none, filename)`. -/
def parse_migration_filename (filename : String) : Option String × String :=
  let cs := filename.data
  let pre := cs.take 12
  let post := cs.drop 12
  let rest := post.drop 2
  let desc := rest.take (rest.length - 4)
  let suffix := rest.drop (rest.length - 4)
  if pre.length = 12 ∧ pre.all Char.isDigit ∧ post.take 2 = ['_', '_'] ∧
      suffix = ['.', 's', 'q', 'l'] ∧ desc ≠ [] ∧ ¬ desc.contains '\n' then
    (some (String.mk pre), String.mk desc)
  else
    (none, filename)

/-- `migrations_dir.glob("*.sql")`: the files of the directory listing whose
name ends in `.sql`. -/
def globSql (files : List String) : List String :=
  files.filter (fun f => ['.', 's', 'q', 'l'].isSuffixOf f.data)

/-- Python string comparison `a <= b`: lexicographic by code point. -/
def charListLe : List Char → List Char → Bool
  | [], _ => true
  | _ :: _, [] => false
  | a :: as, b :: bs => if a = b then charListLe as bs else decide (a < b)

/-- Python string comparison `a < b`: lexicographic by code point. -/
def charListLt : List Char → List Char → Bool
  | [], [] => false
  | [], _ :: _ => true
  | _ :: _, [] => false
  | a :: as, b :: bs => if a = b then charListLt as bs else decide (a < b)

theorem charListLe_total : ∀ a b, charListLe a b = true ∨ charListLe b a = true
  | [], _ => Or.inl rfl
  | _ :: _, [] => Or.inr rfl
  | a :: as, b :: bs => by
    by_cases hab : a = b
    · subst hab
      simpa [charListLe] using charListLe_total as bs
    · rcases lt_trichotomy a b with h | h | h
      · exact Or.inl (by simp [charListLe, hab, h])
      · exact absurd h hab
      · exact Or.inr (by simp [charListLe, Ne.symm hab, h])

theorem charListLe_antisymm :
    ∀ a b, charListLe a b = true → charListLe b a = true → a = b
  | [], [], _, _ => rfl
  | [], _ :: _, _, h => by simp [charListLe] at h
  | _ :: _, [], h, _ => by simp [charListLe] at h
  | a :: as, b :: bs, h, h' => by
    by_cases hab : a = b
    · subst hab
      simp only [charListLe, if_pos rfl] at h h'
      exact congrArg (a :: ·) (charListLe_antisymm as bs h h')
    · simp only [charListLe, if_neg hab, if_neg (Ne.symm hab),
        decide_eq_true_eq] at h h'
      exact absurd h' (lt_asymm h)

theorem charListLe_trans :
    ∀ a b c, charListLe a b = true → charListLe b c = true →
      charListLe a c = true
  | [], _, _, _, _ => rfl
  | _ :: _, [], _, h, _ => by simp [charListLe] at h
  | _ :: _, _ :: _, [], _, h' => by simp [charListLe] at h'
  | a :: as, b :: bs, c :: cs, h, h' => by
    by_cases hab : a = b <;> by_cases hbc : b = c
    · subst hab; subst hbc
      simp only [charListLe, if_pos rfl] at h h' ⊢
      exact charListLe_trans as bs cs h h'
    · subst hab
      simp only [charListLe, if_neg hbc] at h' ⊢
      exact h'
    · subst hbc
      simp only [charListLe, if_neg hab] at h ⊢
      exact h
    · simp only [charListLe, if_neg hab, if_neg hbc, decide_eq_true_eq] at h h'
      have hac : a < c := lt_trans h h'
      simp [charListLe, ne_of_lt hac, hac]

theorem charListLt_iff_not_le :
    ∀ a b, charListLt a b = true ↔ ¬ charListLe b a = true
  | [], [] => by simp [charListLt, charListLe]
  | [], _ :: _ => by simp [charListLt, charListLe]
  | _ :: _, [] => by simp [charListLt, charListLe]
  | a :: as, b :: bs => by
    by_cases hab : a = b
    · subst hab
      simpa [charListLt, charListLe] using charListLt_iff_not_le as bs
    · simp only [charListLt, charListLe, if_neg hab, if_neg (Ne.symm hab),
        decide_eq_true_eq]
      constructor
      · exact fun h h' => lt_asymm h h'
      · intro h
        rcases lt_trichotomy a b with h' | h' | h'
        · exact h'
        · exact absurd h' hab
        · exact absurd h' h

/-- The order used by Python `sorted` on the globbed file names. -/
def strLe (a b : String) : Prop := charListLe a.data b.data = true

instance : DecidableRel strLe := fun a b =>
  inferInstanceAs (Decidable (charListLe a.data b.data = true))

instance : IsTrans String strLe :=
  ⟨fun _ _ _ h h' => charListLe_trans _ _ _ h h'⟩

instance : IsTotal String strLe :=
  ⟨fun a b => charListLe_total a.data b.data⟩

instance : IsAntisymm String strLe :=
  ⟨fun _ _ h h' => String.ext (charListLe_antisymm _ _ h h')⟩

/-- The sort key `(date_str, filename)` of `find_migrations`, compared the way
Python compares tuples of strings. -/
def migLe (a b : String × String) : Prop :=
  charListLt a.1.data b.1.data = true ∨
    (a.1 = b.1 ∧ charListLe a.2.data b.2.data = true)

instance : DecidableRel migLe := fun _ _ =>
  inferInstanceAs (Decidable (_ ∨ _))

instance : IsTrans (String × String) migLe := by
  constructor
  rintro a b c (h | ⟨h, h2⟩) (h' | ⟨h', h2'⟩)
  · refine Or.inl ((charListLt_iff_not_le _ _).mpr fun hle => ?_)
    rw [charListLt_iff_not_le] at h h'
    rcases charListLe_total b.1.data c.1.data with hbc | hcb
    · exact h (charListLe_trans _ _ _ hbc hle)
    · exact h' hcb
  · exact Or.inl (h' ▸ h)
  · exact Or.inl (h ▸ h')
  · exact Or.inr ⟨h.trans h', charListLe_trans _ _ _ h2 h2'⟩

instance : IsTotal (String × String) migLe := by
  constructor
  intro a b
  by_cases hlt : charListLt a.1.data b.1.data = true
  · exact Or.inl (Or.inl hlt)
  · by_cases hlt' : charListLt b.1.data a.1.data = true
    · exact Or.inr (Or.inl hlt')
    · rw [charListLt_iff_not_le, not_not] at hlt hlt'
      have h1 : a.1 = b.1 := String.ext (charListLe_antisymm _ _ hlt' hlt)
      rcases charListLe_total a.2.data b.2.data with h2 | h2
      · exact Or.inl (Or.inr ⟨h1, h2⟩)
      · exact Or.inr (Or.inr ⟨h1.symm, h2⟩)

instance : IsAntisymm (String × String) migLe := by
  constructor
  rintro ⟨a1, a2⟩ ⟨b1, b2⟩ (h | ⟨h, h2⟩) (h' | ⟨h', h2'⟩)
  · rw [charListLt_iff_not_le] at h h'
    exact absurd ((charListLe_total a1.data b1.data).resolve_left h') h
  · rw [h', charListLt_iff_not_le] at h
    exact absurd ((charListLe_total _ _).elim id id) h
  · rw [h, charListLt_iff_not_le] at h'
    exact absurd ((charListLe_total _ _).elim id id) h'
  · simp only [Prod.mk.injEq]
    exact ⟨h, String.ext (charListLe_antisymm _ _ h2 h2')⟩

/-- `SnowflakeMigrator.find_migrations`: glob `*.sql` (Python sorts the glob
result by name), keep files matching the naming pattern as `(date_str, name)`
pairs, then sort by `(date_str, name)`. -/
def find_migrations (files : List String) : List (String × String) :=
  let sortedFiles := List.insertionSort strLe (globSql files)
  let migs := sortedFiles.filterMap (fun f =>
    match parse_migration_filename f with
    | (some d, _) => some (d, f)
    | (none, _) => none)
  List.insertionSort migLe migs

/-- `SnowflakeMigrator.read_sql_file`: read the raw script text and substitute
the `sec_raw` schema placeholders with the configured schema. -/
def read_sql_file (schema : String) (raw : String) : String :=
  let s := strReplace raw "sec_raw." (schema ++ ".")
  let s := strReplace s "CREATE SCHEMA sec_raw"
    ("CREATE SCHEMA IF NOT EXISTS " ++ schema)
  strReplace s "USE SCHEMA sec_raw" ("USE SCHEMA " ++ schema)

/-- The string/comment mode transition of one scanning step of
`SnowflakeMigrator._split_sql_statements`: `c` is the current character,
`next` the lookahead `sql[i+1]` used to detect `--`, `prev` the previous
character `sql[i-1]` used for the backslash escape; the result is the updated
`(in_string, string_char, in_comment)` triple. -/
def splitMode (c : Char) (next : Option Char) (inString : Bool)
    (stringChar : Option Char) (inComment : Bool) (prev : Option Char) :
    Bool × Option Char × Bool :=
  if (c = '\'' ∨ c = '"') ∧ ¬ inComment then
    if ¬ inString then (true, some c, inComment)
    else if some c = stringChar ∧ prev ≠ some '\\' then
      (false, (none : Option Char), inComment)
    else (inString, stringChar, inComment)
  else if ¬ inString then
    if c = '-' ∧ next = some '-' then (inString, stringChar, true)
    else if inComment ∧ c = '\n' then (inString, stringChar, false)
    else (inString, stringChar, inComment)
  else (inString, stringChar, inComment)

/-- The scanning loop of `SnowflakeMigrator._split_sql_statements`: update the
mode, split on a semicolon seen outside strings and comments (emitting the
stripped statement when non-empty), otherwise accumulate the character; at
the end of input emit the final stripped statement when non-empty. -/
def splitGo (stmts : List String) (current : List Char) (inString : Bool)
    (stringChar : Option Char) (inComment : Bool) (prev : Option Char) :
    List Char → List String
  | [] =>
    if stripChars current = [] then stmts
    else stmts ++ [String.mk (stripChars current)]
  | c :: rest =>
    if c = ';' ∧
        ¬ (splitMode c rest.head? inString stringChar inComment prev).1 ∧
        ¬ (splitMode c rest.head? inString stringChar inComment prev).2.2 then
      if stripChars current = [] then
        splitGo stmts []
          (splitMode c rest.head? inString stringChar inComment prev).1
          (splitMode c rest.head? inString stringChar inComment prev).2.1
          (splitMode c rest.head? inString stringChar inComment prev).2.2
          (some c) rest
      else
        splitGo (stmts ++ [String.mk (stripChars current)]) []
          (splitMode c rest.head? inString stringChar inComment prev).1
          (splitMode c rest.head? inString stringChar inComment prev).2.1
          (splitMode c rest.head? inString stringChar inComment prev).2.2
          (some c) rest
    else
      splitGo stmts (current ++ [c])
        (splitMode c rest.head? inString stringChar inComment prev).1
        (splitMode c rest.head? inString stringChar inComment prev).2.1
        (splitMode c rest.head? inString stringChar inComment prev).2.2
        (some c) rest

/-- `SnowflakeMigrator._split_sql_statements`: split SQL text into individual
statements, not splitting on semicolons inside string literals or `--` line
comments; each emitted statement is stripped and non-empty. -/
def split_sql_statements (sql : String) : List String :=
  splitGo [] [] false none false none sql.data

/-- The per-statement cleaning performed inline by `deploy` / `deploy_one`
before executing a statement: strip it, skip it when it is a single-line
comment or empty, drop every comment-only line, re-join and strip; `none`
means the statement is skipped. -/
def cleanStatement (stmt : String) : Option String :=
  let s := stripChars stmt.data
  if s = [] then none
  else if ['-', '-'].isPrefixOf s ∧ ¬ s.contains '\n' then none
  else
    let lines := splitLinesGo s
    let kept := lines.filter (fun l =>
      stripChars l = [] ∨ ¬ ['-', '-'].isPrefixOf (stripChars l))
    let cleaned := stripChars (joinNl kept)
    if cleaned = [] then none else some (String.mk cleaned)

/-- `\w` of the extraction regexes (ASCII word character). -/
def isWordChar (c : Char) : Bool := c.isAlpha || c.isDigit || c = '_'

/-- `\s` of the extraction regexes (ASCII whitespace). -/
def isSpaceChar (c : Char) : Bool :=
  c = ' ' || c = '\t' || c = '\n' || c = '\r' || c = '\x0B' || c = '\x0C'

/-- Case-insensitive literal match: on success return the remaining input. -/
def matchCI : List Char → List Char → Option (List Char)
  | [], l => some l
  | _ :: _, [] => none
  | k :: ks, c :: cs => if c.toLower = k.toLower then matchCI ks cs else none

/-- `\s+`: at least one whitespace character, consumed greedily. -/
def matchSpaces1 : List Char → Option (List Char)
  | [] => none
  | c :: cs => if isSpaceChar c then some (cs.dropWhile isSpaceChar) else none

/-- The optional group `(?:OR\s+REPLACE\s+)?` of the extraction regexes:
consume `OR`, whitespace, `REPLACE`, whitespace when all four parts match,
otherwise (backtracking to the empty alternative) consume nothing. -/
def matchOrReplace (l : List Char) : List Char :=
  match matchCI "OR".data l with
  | none => l
  | some lo =>
    match matchSpaces1 lo with
    | none => l
    | some lo2 =>
      match matchCI "REPLACE".data lo2 with
      | none => l
      | some lr =>
        match matchSpaces1 lr with
        | none => l
        | some lr2 => lr2

/-- Match the regex `CREATE\s+(?:OR\s+REPLACE\s+)?<kw>\s+(?:\w+\.)?(\w+)`
(case-insensitive) at the start of `l`; on success return the captured
object name and the input remaining after the match.  The qualifier group
`(?:\w+\.)?` is taken exactly when a word, a dot and a further word follow
(the regex backtracks to the empty qualifier otherwise). -/
def matchCreate (kw : List Char) (l : List Char) :
    Option (List Char × List Char) :=
  match matchCI "CREATE".data l with
  | none => none
  | some l1 =>
    match matchSpaces1 l1 with
    | none => none
    | some l2 =>
      match matchCI kw (matchOrReplace l2) with
      | none => none
      | some l4 =>
        match matchSpaces1 l4 with
        | none => none
        | some l5 =>
          if l5.takeWhile isWordChar = [] then none
          else
            match l5.dropWhile isWordChar with
            | [] => some (l5.takeWhile isWordChar, l5.dropWhile isWordChar)
            | c :: r2 =>
              if c = '.' ∧ r2.takeWhile isWordChar ≠ [] then
                some (r2.takeWhile isWordChar, r2.dropWhile isWordChar)
              else some (l5.takeWhile isWordChar, l5.dropWhile isWordChar)

/-- `re.finditer` for `matchCreate`: scan left to right, resuming after the
end of each match; `fuel` (initialised to the input length) makes the
recursion structural. -/
def scanCreates (kw : List Char) : Nat → List Char → List (List Char)
  | _, [] => []
  | 0, _ => []
  | fuel + 1, c :: rest =>
    match matchCreate kw (c :: rest) with
    | some (name, remaining) => name :: scanCreates kw fuel remaining
    | none => scanCreates kw fuel rest

/-- `scanCreates` instrumented with the text offset of each match: entries
are `(position, captured name)` where `position` counts characters from the
start of the scanned text; the scan resumes after the end of each match,
exactly as in `scanCreates`. -/
def scanCreatesPos (kw : List Char) : Nat → Nat → List Char →
    List (Nat × List Char)
  | _, _, [] => []
  | 0, _, _ => []
  | fuel + 1, pos, c :: rest =>
    match matchCreate kw (c :: rest) with
    | some (name, remaining) =>
      (pos, name) ::
        scanCreatesPos kw fuel
          (pos + ((c :: rest).length - remaining.length)) remaining
    | none => scanCreatesPos kw fuel (pos + 1) rest

/-- `SnowflakeMigrator._extract_objects_from_sql`: collect all
`CREATE [OR REPLACE] TABLE` names (upper-cased), then all
`CREATE [OR REPLACE] VIEW` names. -/
def extract_objects_from_sql (sql : String) : List (String × String) :=
  let tables := scanCreates "TABLE".data sql.data.length sql.data
  let views := scanCreates "VIEW".data sql.data.length sql.data
  tables.map (fun n => ("TABLE", String.mk (n.map Char.toUpper)))
    ++ views.map (fun n => ("VIEW", String.mk (n.map Char.toUpper)))

/-- One row of the `schema_migrations` ledger table (`migration_name` is the
key of the surrounding map). -/
structure MigRecord where
  checksum : String
  executed_at : Nat
  executed_by : String
  execution_time_ms : Nat
  success : Bool
  error_message : Option String
deriving DecidableEq, Repr

/-- The ledger table, one optional row per migration name. -/
def Ledger : Type := String → Option MigRecord

/-- The environment of one engine invocation: configured schema, the identity
and clock reported by the store, the (collision-resistant) checksum function
`calculate_checksum`, the store's response to executing a statement, and the
dry-run flag. -/
structure Env where
  schema : String
  current_user : String
  now : Nat
  elapsed_ms : Nat
  checksum : String → String
  execStmt : String → Except String Unit
  dryRun : Bool

/-- `SnowflakeMigrator.execute_sql`: in dry-run mode log and return, otherwise
run the statement against the store. -/
def execute_sql (env : Env) (sql : String) : Except String Unit :=
  if env.dryRun then Except.ok () else env.execStmt sql

/-- `MigrationTracker.get_executed_migrations`: the rows with
`success = TRUE`. -/
def get_executed_migrations (ledger : Ledger) : String → Option MigRecord :=
  fun n =>
    match ledger n with
    | some r => if r.success then some r else none
    | none => none

/-- `MigrationTracker.record_migration`: MERGE (upsert) the row for
`name`, overwriting every mutable column. -/
def record_migration (env : Env) (ledger : Ledger) (name cs : String)
    (success : Bool) (error_message : Option String) : Ledger :=
  fun n =>
    if n = name then
      some { checksum := cs, executed_at := env.now,
             executed_by := env.current_user,
             execution_time_ms := env.elapsed_ms,
             success := success, error_message := error_message }
    else ledger n

/-- The statement loop shared by `deploy` and `deploy_one`: clean each
statement, skip the empty ones, execute the rest in order, stopping at the
first failure. -/
def runStatements (env : Env) : List String → Except String Unit
  | [] => Except.ok ()
  | s :: rest =>
    match cleanStatement s with
    | none => runStatements env rest
    | some c =>
      match execute_sql env c with
      | Except.ok _ => runStatements env rest
      | Except.error e => Except.error e

/-- The result of a `deploy` run: final ledger, the migrations attempted (in
order; its length is the source's `pending_count`), and the propagated error,
if any. -/
structure DeployOutcome where
  ledger : Ledger
  executed : List String
  err : Option String

/-- The `CREATE SCHEMA IF NOT EXISTS` statement issued at the start of
`deploy` and `deploy_one`. -/
def createSchemaSql (schema : String) : String :=
  "CREATE SCHEMA IF NOT EXISTS " ++ schema

/-- The substituted text of a migration script, as read by `deploy` /
`deploy_one` through `read_sql_file`. -/
def migSql (env : Env) (content : String → String) (name : String) : String :=
  read_sql_file env.schema (content name)

/-- The skip test of `deploy` / `deploy_one`: a migration is skipped when the
snapshot of successful rows holds its name with a checksum equal to the
checksum of its current substituted text. -/
def migSkip (env : Env) (em : String → Option MigRecord)
    (content : String → String) (name : String) : Bool :=
  match em name with
  | some r => env.checksum (migSql env content name) == r.checksum
  | none => false

/-- The record upserted after a successful run of one migration. -/
def successRecord (env : Env) (cs : String) : MigRecord :=
  { checksum := cs, executed_at := env.now, executed_by := env.current_user,
    execution_time_ms := env.elapsed_ms, success := true,
    error_message := none }

/-- The record upserted after a failed run of one migration. -/
def failureRecord (env : Env) (cs : String) (e : String) : MigRecord :=
  { checksum := cs, executed_at := env.now, executed_by := env.current_user,
    execution_time_ms := env.elapsed_ms, success := false,
    error_message := some e }

/-- The per-migration loop of `SnowflakeMigrator.deploy`: skip a migration
whose successful record's checksum matches the current (substituted) text,
re-run it on checksum drift, run it when unrecorded; record the outcome (not
in dry-run mode) and stop the whole batch on the first failure.  `em` is the
snapshot of successful rows taken before the loop. -/
def deployGo (env : Env) (em : String → Option MigRecord)
    (content : String → String) :
    List (String × String) → Ledger → List String → DeployOutcome
  | [], ledger, acc => ⟨ledger, acc, none⟩
  | (_, name) :: rest, ledger, acc =>
    if migSkip env em content name then
      deployGo env em content rest ledger acc
    else
      match runStatements env
          (split_sql_statements (migSql env content name)) with
      | Except.ok _ =>
        deployGo env em content rest
          (if env.dryRun then ledger
           else record_migration env ledger name
             (env.checksum (migSql env content name)) true none)
          (acc ++ [name])
      | Except.error e =>
        ⟨(if env.dryRun then ledger
          else record_migration env ledger name
            (env.checksum (migSql env content name)) false (some e)),
         acc ++ [name], some e⟩

/-- `SnowflakeMigrator.deploy`: ensure the schema and tracking table exist,
snapshot the successful rows (skipped in dry-run mode, where no connection is
made and the snapshot stays empty), discover the scripts, and process them in
order. -/
def deploy (env : Env) (content : String → String) (ledger : Ledger)
    (files : List String) : DeployOutcome :=
  match execute_sql env (createSchemaSql env.schema) with
  | Except.error e => ⟨ledger, [], some e⟩
  | Except.ok _ =>
    deployGo env
      (if env.dryRun then fun _ => none else get_executed_migrations ledger)
      content (find_migrations files) ledger []

/-- `SnowflakeMigrator.get_next_pending_migration`: the first discovered
migration whose name has no successful ledger row (the ledger is not read in
dry-run mode). -/
def get_next_pending_migration (env : Env) (ledger : Ledger)
    (files : List String) : Option (String × String) :=
  (find_migrations files).find? (fun p =>
    ((if env.dryRun then fun _ => none
      else get_executed_migrations ledger) p.2).isNone)

/-- The result of a `deploy_one` run: final ledger, the migration attempted
(if any), whether "all migrations are up to date" was reported, and the
propagated error, if any. -/
structure DeployOneOutcome where
  ledger : Ledger
  executed : Option String
  upToDate : Bool
  err : Option String

/-- `SnowflakeMigrator.deploy_one`: like `deploy` but acting on only the next
pending migration (selected by name membership alone); reports "up to date"
when none remains.  The checksum comparison of its body is kept even though a
migration returned by `get_next_pending_migration` never has a successful
row. -/
def deploy_one (env : Env) (content : String → String) (ledger : Ledger)
    (files : List String) : DeployOneOutcome :=
  match execute_sql env (createSchemaSql env.schema) with
  | Except.error e => ⟨ledger, none, false, some e⟩
  | Except.ok _ =>
    match get_next_pending_migration env ledger files with
    | none => ⟨ledger, none, true, none⟩
    | some (_, name) =>
      if migSkip env
          (if env.dryRun then fun _ => none
           else get_executed_migrations ledger) content name then
        ⟨ledger, none, false, none⟩
      else
        match runStatements env
            (split_sql_statements (migSql env content name)) with
        | Except.ok _ =>
          ⟨(if env.dryRun then ledger
            else record_migration env ledger name
              (env.checksum (migSql env content name)) true none),
           some name, false, none⟩
        | Except.error e =>
          ⟨(if env.dryRun then ledger
            else record_migration env ledger name
              (env.checksum (migSql env content name)) false (some e)),
           some name, false, some e⟩

/-- The result of `rollback_migration`: final ledger, the `DROP` statements
issued (in order), whether the tracking row was deleted, and whether the
missing-script-file error was logged. -/
structure RollbackOutcome where
  ledger : Ledger
  drops : List String
  recordDeleted : Bool
  erroredMissingFile : Bool

/-- `SnowflakeMigrator.rollback_migration`: no-op in dry-run mode; warn and
return when the name has no successful row; log an error and return when the
script file is absent; otherwise drop the extracted objects in reverse
creation order (individual drop failures are absorbed) and delete the
tracking row.  The `Except` layer mirrors exception propagation to the
caller: every modelled path returns normally. -/
def rollback_migration (env : Env) (fs : String → Option String)
    (ledger : Ledger) (migration_name : String) :
    Except String RollbackOutcome :=
  if env.dryRun then Except.ok ⟨ledger, [], false, false⟩
  else
    let executedMap := get_executed_migrations ledger
    match executedMap migration_name with
    | none => Except.ok ⟨ledger, [], false, false⟩
    | some _ =>
      match fs migration_name with
      | none => Except.ok ⟨ledger, [], false, true⟩
      | some raw =>
        let sqlContent := read_sql_file env.schema raw
        let objs := extract_objects_from_sql sqlContent
        let drops := objs.reverse.filterMap (fun p =>
          if p.1 = "VIEW" then
            some ("DROP VIEW IF EXISTS " ++ env.schema ++ "." ++ p.2)
          else if p.1 = "TABLE" then
            some ("DROP TABLE IF EXISTS " ++ env.schema ++ "." ++ p.2)
          else none)
        let ledger' : Ledger :=
          fun n => if n = migration_name then none else ledger n
        Except.ok ⟨ledger', drops, true, false⟩

/-- The exit code of `main` for `--rollback NAME`: `0` unless an exception
propagates out of `rollback_migration` (the `try`/`except` at the bottom of
the script exits `1` only on a raised exception). -/
def mainRollbackExitCode (env : Env) (fs : String → Option String)
    (ledger : Ledger) (migration_name : String) : Nat :=
  match rollback_migration env fs ledger migration_name with
  | Except.ok _ => 0
  | Except.error _ => 1

/-- A concrete environment whose store fails exactly on the statement
`BOOM`, used to exercise the failure path on concrete inputs. -/
def envBoom : Env :=
  { schema := "sec_raw", current_user := "u", now := 0, elapsed_ms := 0,
    checksum := fun s => s,
    execStmt := fun s =>
      if s = "BOOM" then Except.error "kaput" else Except.ok (),
    dryRun := false }

/-- Concrete script contents where the second migration fails
mid-statement. -/
def contentBoom : String → String := fun n =>
  if n = "202501020000__b.sql" then "SELECT 1;\nBOOM;" else "SELECT 1;"

/-- A concrete three-script directory listing. -/
def files3 : List String :=
  ["202501010000__a.sql", "202501020000__b.sql", "202501030000__c.sql"]

theorem dropWhile_idem (p : Char → Bool) :
    ∀ l : List Char, (l.dropWhile p).dropWhile p = l.dropWhile p
  | [] => rfl
  | c :: rest => by
    by_cases h : p c
    · simp [List.dropWhile_cons, h, dropWhile_idem p rest]
    · simp [List.dropWhile_cons, h]

theorem dropWhile_length_le (p : Char → Bool) :
    ∀ l : List Char, (l.dropWhile p).length ≤ l.length
  | [] => Nat.le_refl _
  | c :: rest => by
    by_cases h : p c
    · simp only [List.dropWhile_cons, h, if_true]
      exact Nat.le_succ_of_le (dropWhile_length_le p rest)
    · simp [List.dropWhile_cons, h]

/-- A prefix of a list with no leading `p`-run is itself without a leading
`p`-run. -/
theorem dropWhile_eq_self_of_front (p : Char → Bool) :
    ∀ v u : List Char, v <+: u → u.dropWhile p = u → v.dropWhile p = v := by
  intro v u hpre hfix
  cases v with
  | nil => rfl
  | cons a t =>
    obtain ⟨s, hs⟩ := hpre
    subst hs
    simp only [List.cons_append] at hfix
    by_cases hp : p a
    · exfalso
      rw [List.dropWhile_cons, if_pos hp] at hfix
      have := dropWhile_length_le p (t ++ s)
      rw [hfix] at this
      simp at this
    · rw [List.dropWhile_cons, if_neg hp]

theorem stripChars_idem (l : List Char) :
    stripChars (stripChars l) = stripChars l := by
  unfold stripChars
  set u := l.dropWhile isStripChar with hu
  have hufix : u.dropWhile isStripChar = u := dropWhile_idem _ l
  set b := u.reverse.dropWhile isStripChar with hb
  have hbpre : b.reverse <+: u := by
    refine ⟨(u.reverse.takeWhile isStripChar).reverse, ?_⟩
    rw [← List.reverse_append, List.takeWhile_append_dropWhile, List.reverse_reverse]
  have h1 : b.reverse.dropWhile isStripChar = b.reverse :=
    dropWhile_eq_self_of_front _ _ _ hbpre hufix
  rw [h1, List.reverse_reverse, dropWhile_idem]

/-- The statements accumulated and emitted by `splitGo` are stripped and
non-empty. -/
theorem splitGo_stripped (P : String → Prop)
    (hP : ∀ cur : List Char, stripChars cur ≠ [] →
      P (String.mk (stripChars cur))) :
    ∀ (rest : List Char) (stmts : List String) (current : List Char)
      (inString : Bool) (stringChar : Option Char) (inComment : Bool)
      (prev : Option Char),
      (∀ s ∈ stmts, P s) →
      ∀ s ∈ splitGo stmts current inString stringChar inComment prev rest, P s
  | [], stmts, current, inString, stringChar, inComment, prev, hstmts => by
    intro s hs
    rw [splitGo] at hs
    by_cases h : stripChars current = []
    · rw [if_pos h] at hs
      exact hstmts s hs
    · rw [if_neg h] at hs
      rcases List.mem_append.mp hs with h' | h'
      · exact hstmts s h'
      · rw [List.mem_singleton.mp h']
        exact hP current h
  | c :: rest, stmts, current, inString, stringChar, inComment, prev, hstmts => by
    intro s hs
    rw [splitGo] at hs
    by_cases hsplit : c = ';' ∧
        ¬ (splitMode c rest.head? inString stringChar inComment prev).1 ∧
        ¬ (splitMode c rest.head? inString stringChar inComment prev).2.2
    · rw [if_pos hsplit] at hs
      by_cases hemp : stripChars current = []
      · rw [if_pos hemp] at hs
        exact splitGo_stripped P hP rest _ _ _ _ _ _ hstmts s hs
      · rw [if_neg hemp] at hs
        refine splitGo_stripped P hP rest _ _ _ _ _ _ ?_ s hs
        intro t ht
        rcases List.mem_append.mp ht with h' | h'
        · exact hstmts t h'
        · rw [List.mem_singleton.mp h']
          exact hP current hemp
    · rw [if_neg hsplit] at hs
      exact splitGo_stripped P hP rest _ _ _ _ _ _ hstmts s hs

/-- C5: for every input text the tokenizer splits only on semicolons seen in
normal mode — a semicolon scanned while inside a single- or double-quoted
literal or inside a `--` line comment is accumulated, never emitted as a
statement boundary — every emitted statement is stripped and non-empty, and
`split("SELECT ';' ;")` yields exactly one statement containing the literal
semicolon unsplit. -/
theorem split_sql_statements_spec :
    (∀ sql : String, ∀ s ∈ split_sql_statements sql,
        s.data = stripChars s.data ∧ s ≠ "") ∧
    (∀ (stmts : List String) (current : List Char) (stringChar : Option Char)
        (inComment : Bool) (prev : Option Char) (rest : List Char),
        splitGo stmts current true stringChar inComment prev (';' :: rest) =
          splitGo stmts (current ++ [';']) true stringChar inComment
            (some ';') rest) ∧
    (∀ (stmts : List String) (current : List Char) (inString : Bool)
        (stringChar : Option Char) (prev : Option Char) (rest : List Char),
        splitGo stmts current inString stringChar true prev (';' :: rest) =
          splitGo stmts (current ++ [';']) inString stringChar true
            (some ';') rest) ∧
    split_sql_statements "SELECT ';' ;" = ["SELECT ';'"] := by
  refine ⟨?_, ?_, ?_, by decide⟩
  · intro sql s hs
    refine splitGo_stripped
      (fun s => s.data = stripChars s.data ∧ s ≠ "") ?_ sql.data
      [] [] false none false none (by intro t ht; cases ht) s hs
    intro cur hcur
    refine ⟨(stripChars_idem cur).symm, ?_⟩
    intro h
    exact hcur (congrArg String.data h)
  · intro stmts current stringChar inComment prev rest
    rw [splitGo]
    have hmode : splitMode ';' rest.head? true stringChar inComment prev =
        (true, stringChar, inComment) := by
      rw [splitMode]
      rw [if_neg (by simp), if_neg (by simp)]
    rw [hmode]
    simp
  · intro stmts current inString stringChar prev rest
    rw [splitGo]
    have hmode : splitMode ';' rest.head? inString stringChar true prev =
        (inString, stringChar, true) := by
      rw [splitMode]
      rw [if_neg (by simp)]
      by_cases h : inString
      · rw [if_neg (by simp [h])]
      · rw [if_pos (by simp [h]), if_neg (by simp), if_neg (by simp)]
    rw [hmode]
    simp

/-- Witness for `split_sql_statements_spec` at a concrete input. -/
theorem split_sql_statements_spec_witness :
    ("A" ∈ split_sql_statements "A;B;") ∧
    ("A".data = stripChars "A".data ∧ "A" ≠ "") :=
  ⟨by decide, split_sql_statements_spec.1 "A;B;" "A" (by decide)⟩

/-- C6 counterexample: the tokenizer does not remove the leading line comment
from the statement, so `split("-- a;b\nSELECT 1;")` is not `["SELECT 1"]`. -/
theorem split_comment_counterexample :
    split_sql_statements "-- a;b\nSELECT 1;" ≠ ["SELECT 1"] := by decide

/-- C6 (amended): `split("-- a;b\nSELECT 1;")` yields exactly one statement,
whose text is `-- a;b\nSELECT 1` — the line comment is preserved by the
tokenizer (the semicolon inside it does not split), and it is the engine's
per-statement cleaning step that reduces the statement to `SELECT 1` before
execution. -/
theorem split_comment_preserved :
    split_sql_statements "-- a;b\nSELECT 1;" = ["-- a;b\nSELECT 1"] ∧
    cleanStatement "-- a;b\nSELECT 1" = some "SELECT 1" := by
  exact ⟨by decide, by decide⟩

/-- C7 counterexample: for a script creating view `v` before table `t`, the
extractor does not put `v`'s reference before `t`'s. -/
theorem extract_objects_order_counterexample :
    ¬ ((extract_objects_from_sql
          "CREATE VIEW v AS SELECT 1;\nCREATE TABLE t (x INT);").indexOf
            ("VIEW", "V") <
        (extract_objects_from_sql
          "CREATE VIEW v AS SELECT 1;\nCREATE TABLE t (x INT);").indexOf
            ("TABLE", "T")) := by decide

/-- `List.dropWhile` keeps a suffix of its input. -/
theorem dropWhile_suffix (p : Char → Bool) (l : List Char) :
    l.dropWhile p <:+ l :=
  ⟨l.takeWhile p, List.takeWhile_append_dropWhile p l⟩

/-- A successful case-insensitive literal match consumes exactly the
literal: what remains is a suffix shorter by the literal's length. -/
theorem matchCI_suffix :
    ∀ (ks l l' : List Char), matchCI ks l = some l' →
      l' <:+ l ∧ l'.length + ks.length = l.length
  | [], l, l', h => by
    rw [matchCI] at h
    injection h with h
    subst h
    exact ⟨List.suffix_rfl, by simp⟩
  | _ :: _, [], l', h => by
    rw [matchCI] at h
    exact Option.noConfusion h
  | k :: ks, c :: cs, l', h => by
    rw [matchCI] at h
    by_cases hc : c.toLower = k.toLower
    · rw [if_pos hc] at h
      obtain ⟨hs, hlen⟩ := matchCI_suffix ks cs l' h
      refine ⟨hs.trans (List.suffix_cons c cs), ?_⟩
      simp only [List.length_cons]
      omega
    · rw [if_neg hc] at h
      exact Option.noConfusion h

/-- A successful `\s+` match consumes at least one character and leaves a
suffix. -/
theorem matchSpaces1_suffix (l l' : List Char) (h : matchSpaces1 l = some l') :
    l' <:+ l ∧ l'.length < l.length := by
  cases l with
  | nil =>
    rw [matchSpaces1] at h
    exact Option.noConfusion h
  | cons c cs =>
    rw [matchSpaces1] at h
    by_cases hc : isSpaceChar c = true
    · rw [if_pos hc] at h
      injection h with h
      subst h
      refine ⟨(dropWhile_suffix isSpaceChar cs).trans
        (List.suffix_cons c cs), ?_⟩
      have := dropWhile_length_le isSpaceChar cs
      simp only [List.length_cons]
      omega
    · rw [if_neg hc] at h
      exact Option.noConfusion h

/-- The optional `OR REPLACE` group leaves a suffix of its input. -/
theorem matchOrReplace_suffix (l : List Char) : matchOrReplace l <:+ l := by
  rw [matchOrReplace]
  split
  · exact List.suffix_rfl
  · rename_i lo h1
    split
    · exact List.suffix_rfl
    · rename_i lo2 h2
      split
      · exact List.suffix_rfl
      · rename_i lr h3
        split
        · exact List.suffix_rfl
        · rename_i lr2 h4
          exact ((matchSpaces1_suffix lr lr2 h4).1.trans
            ((matchCI_suffix "REPLACE".data lo2 lr h3).1.trans
              ((matchSpaces1_suffix lo lo2 h2).1.trans
                (matchCI_suffix "OR".data l lo h1).1)))

/-- A successful `matchCreate` consumes at least one character: the
remaining input is a strictly shorter suffix. -/
theorem matchCreate_suffix (kw nm rem l : List Char)
    (h : matchCreate kw l = some (nm, rem)) :
    rem <:+ l ∧ rem.length < l.length := by
  rw [matchCreate] at h
  cases h1 : matchCI "CREATE".data l with
  | none => rw [h1] at h; exact Option.noConfusion h
  | some l1 =>
    simp only [h1] at h
    obtain ⟨hs1, hlen1⟩ := matchCI_suffix "CREATE".data l l1 h1
    have hc6 : "CREATE".data.length = 6 := rfl
    cases h2 : matchSpaces1 l1 with
    | none => rw [h2] at h; exact Option.noConfusion h
    | some l2 =>
      simp only [h2] at h
      obtain ⟨hs2, hlen2⟩ := matchSpaces1_suffix l1 l2 h2
      cases h3 : matchCI kw (matchOrReplace l2) with
      | none => rw [h3] at h; exact Option.noConfusion h
      | some l4 =>
        simp only [h3] at h
        obtain ⟨hs3, hlen3⟩ := matchCI_suffix kw (matchOrReplace l2) l4 h3
        have hsOR := matchOrReplace_suffix l2
        cases h4 : matchSpaces1 l4 with
        | none => rw [h4] at h; exact Option.noConfusion h
        | some l5 =>
          simp only [h4] at h
          obtain ⟨hs4, hlen4⟩ := matchSpaces1_suffix l4 l5 h4
          have hsa : l5 <:+ l1 := ((hs4.trans hs3).trans hsOR).trans hs2
          have hl5s : l5 <:+ l := hsa.trans hs1
          have hl5len : l5.length < l.length := by
            have := hsa.length_le
            omega
          by_cases hw : l5.takeWhile isWordChar = []
          · rw [if_pos hw] at h
            exact Option.noConfusion h
          · rw [if_neg hw] at h
            have hdw : l5.dropWhile isWordChar <:+ l5 :=
              dropWhile_suffix isWordChar l5
            cases hr : l5.dropWhile isWordChar with
            | nil =>
              simp only [hr, Option.some.injEq, Prod.mk.injEq] at h
              obtain ⟨-, hrem⟩ := h
              subst hrem
              exact ⟨List.nil_suffix, by simp only [List.length_nil]; omega⟩
            | cons c r2 =>
              simp only [hr] at h
              have hcr : (c :: r2) <:+ l5 := hr ▸ hdw
              by_cases hdot : c = '.' ∧ r2.takeWhile isWordChar ≠ []
              · rw [if_pos hdot] at h
                simp only [Option.some.injEq, Prod.mk.injEq] at h
                obtain ⟨-, hrem⟩ := h
                subst hrem
                refine ⟨((dropWhile_suffix isWordChar r2).trans
                  ((List.suffix_cons c r2).trans hcr)).trans hl5s, ?_⟩
                have ha := dropWhile_length_le isWordChar r2
                have hb := hcr.length_le
                simp only [List.length_cons] at hb
                omega
              · rw [if_neg hdot] at h
                simp only [Option.some.injEq, Prod.mk.injEq] at h
                obtain ⟨-, hrem⟩ := h
                subst hrem
                refine ⟨(hr ▸ hdw).trans hl5s, ?_⟩
                have hb := hcr.length_le
                omega

/-- Dropping the positions of the instrumented scan yields the plain
scan. -/
theorem scanCreatesPos_map_snd (kw : List Char) :
    ∀ (fuel pos : Nat) (l : List Char),
      (scanCreatesPos kw fuel pos l).map Prod.snd = scanCreates kw fuel l
  | fuel, pos, [] => by cases fuel <;> simp [scanCreatesPos, scanCreates]
  | 0, pos, l => by cases l <;> simp [scanCreatesPos, scanCreates]
  | fuel + 1, pos, c :: rest => by
    cases hm : matchCreate kw (c :: rest) with
    | none =>
      simp only [scanCreatesPos, scanCreates, hm]
      exact scanCreatesPos_map_snd kw fuel (pos + 1) rest
    | some pr =>
      obtain ⟨name, remaining⟩ := pr
      simp only [scanCreatesPos, scanCreates, hm, List.map_cons,
        List.cons.injEq]
      exact ⟨trivial, scanCreatesPos_map_snd kw fuel _ remaining⟩

/-- Every entry of the instrumented scan sits at or after the base
offset. -/
theorem scanCreatesPos_lower (kw : List Char) :
    ∀ (fuel pos : Nat) (l : List Char) (q : Nat × List Char),
      q ∈ scanCreatesPos kw fuel pos l → pos ≤ q.1
  | fuel, pos, [], q, hq => by cases fuel <;> simp [scanCreatesPos] at hq
  | 0, pos, l, q, hq => by cases l <;> simp [scanCreatesPos] at hq
  | fuel + 1, pos, c :: rest, q, hq => by
    cases hm : matchCreate kw (c :: rest) with
    | none =>
      simp only [scanCreatesPos, hm] at hq
      have := scanCreatesPos_lower kw fuel (pos + 1) rest q hq
      omega
    | some pr =>
      obtain ⟨name, remaining⟩ := pr
      simp only [scanCreatesPos, hm] at hq
      rcases List.mem_cons.mp hq with hq | hq
      · subst hq
        exact Nat.le_refl pos
      · have := scanCreatesPos_lower kw fuel
          (pos + ((c :: rest).length - remaining.length)) remaining q hq
        omega

/-- The match positions of the instrumented scan strictly increase: each
group of references is listed in text order. -/
theorem scanCreatesPos_sorted (kw : List Char) :
    ∀ (fuel pos : Nat) (l : List Char),
      (scanCreatesPos kw fuel pos l).Pairwise (fun a b => a.1 < b.1)
  | fuel, pos, [] => by cases fuel <;> simp [scanCreatesPos]
  | 0, pos, l => by cases l <;> simp [scanCreatesPos]
  | fuel + 1, pos, c :: rest => by
    cases hm : matchCreate kw (c :: rest) with
    | none =>
      simp only [scanCreatesPos, hm]
      exact scanCreatesPos_sorted kw fuel (pos + 1) rest
    | some pr =>
      obtain ⟨name, remaining⟩ := pr
      simp only [scanCreatesPos, hm]
      refine List.Pairwise.cons ?_
        (scanCreatesPos_sorted kw fuel _ remaining)
      intro q hq
      have hlow := scanCreatesPos_lower kw fuel
        (pos + ((c :: rest).length - remaining.length)) remaining q hq
      have hlt :=
        (matchCreate_suffix kw name remaining (c :: rest) hm).2
      show pos < q.1
      omega

/-- Each entry of the instrumented scan is a real match: at the recorded
offset of the scanned text, `matchCreate` succeeds and captures exactly the
recorded name. -/
theorem scanCreatesPos_matches (kw : List Char) :
    ∀ (fuel pos : Nat) (l : List Char) (q : Nat × List Char),
      q ∈ scanCreatesPos kw fuel pos l →
      ∃ rem, matchCreate kw (l.drop (q.1 - pos)) = some (q.2, rem)
  | fuel, pos, [], q, hq => by cases fuel <;> simp [scanCreatesPos] at hq
  | 0, pos, l, q, hq => by cases l <;> simp [scanCreatesPos] at hq
  | fuel + 1, pos, c :: rest, q, hq => by
    cases hm : matchCreate kw (c :: rest) with
    | none =>
      simp only [scanCreatesPos, hm] at hq
      obtain ⟨rem, hrem⟩ := scanCreatesPos_matches kw fuel (pos + 1) rest q hq
      have hlow := scanCreatesPos_lower kw fuel (pos + 1) rest q hq
      refine ⟨rem, ?_⟩
      have hq1 : q.1 - pos = (q.1 - (pos + 1)) + 1 := by omega
      rw [hq1, List.drop_succ_cons]
      exact hrem
    | some pr =>
      obtain ⟨name, remaining⟩ := pr
      simp only [scanCreatesPos, hm] at hq
      rcases List.mem_cons.mp hq with hq | hq
      · subst hq
        refine ⟨remaining, ?_⟩
        show matchCreate kw ((c :: rest).drop (pos - pos)) =
          some (name, remaining)
        rw [Nat.sub_self]
        exact hm
      · obtain ⟨rem, hrem⟩ := scanCreatesPos_matches kw fuel
          (pos + ((c :: rest).length - remaining.length)) remaining q hq
        have hlow := scanCreatesPos_lower kw fuel
          (pos + ((c :: rest).length - remaining.length)) remaining q hq
        obtain ⟨hsuf, hlen⟩ :=
          matchCreate_suffix kw name remaining (c :: rest) hm
        obtain ⟨t, ht⟩ := hsuf
        have htlen : t.length = (c :: rest).length - remaining.length := by
          have := congrArg List.length ht
          simp only [List.length_append] at this
          omega
        refine ⟨rem, ?_⟩
        have hdropk : (c :: rest).drop
            ((c :: rest).length - remaining.length) = remaining := by
          rw [← htlen, ← ht]
          exact List.drop_left t remaining
        have hq1 : q.1 - pos =
            ((c :: rest).length - remaining.length) +
              (q.1 - (pos + ((c :: rest).length - remaining.length))) := by
          omega
        rw [hq1, ← List.drop_drop, hdropk]
        exact hrem

/-- C7 (amended): for every script text the extractor returns all
`CREATE TABLE` references first and then all `CREATE VIEW` references —
not the creating statements' overall text order — and each group is listed
in the order its creating statements appear in the text: the output is
exactly the two per-keyword scans, whose recorded match offsets strictly
increase and each of whose entries is a real match of the `CREATE` pattern
at its offset.  In particular, for a text containing `CREATE VIEW v`
followed by `CREATE TABLE t`, the reference for `t` precedes the reference
for `v`. -/
theorem extract_objects_tables_then_views :
    (∀ sql : String,
        extract_objects_from_sql sql =
          (scanCreatesPos "TABLE".data sql.data.length 0 sql.data).map
            (fun q => ("TABLE", String.mk (q.2.map Char.toUpper))) ++
          (scanCreatesPos "VIEW".data sql.data.length 0 sql.data).map
            (fun q => ("VIEW", String.mk (q.2.map Char.toUpper)))) ∧
    (∀ (kw : List Char) (fuel pos : Nat) (text : List Char),
        (scanCreatesPos kw fuel pos text).Pairwise
          (fun a b => a.1 < b.1)) ∧
    (∀ (kw : List Char) (fuel pos : Nat) (text : List Char)
        (q : Nat × List Char), q ∈ scanCreatesPos kw fuel pos text →
        ∃ rem, matchCreate kw (text.drop (q.1 - pos)) = some (q.2, rem)) ∧
    extract_objects_from_sql
        "CREATE VIEW w AS SELECT 1;\nCREATE TABLE a (x INT);\nCREATE VIEW z AS SELECT 2;\nCREATE TABLE b (y INT);" =
      [("TABLE", "A"), ("TABLE", "B"), ("VIEW", "W"), ("VIEW", "Z")] ∧
    extract_objects_from_sql
        "CREATE VIEW v AS SELECT 1;\nCREATE TABLE t (x INT);" =
      [("TABLE", "T"), ("VIEW", "V")] := by
  refine ⟨?_, scanCreatesPos_sorted, scanCreatesPos_matches,
    by decide, by decide⟩
  intro sql
  simp only [extract_objects_from_sql]
  rw [← scanCreatesPos_map_snd "TABLE".data sql.data.length 0 sql.data,
    ← scanCreatesPos_map_snd "VIEW".data sql.data.length 0 sql.data]
  simp only [List.map_map]
  rfl

/-- Witness for `extract_objects_tables_then_views` at a concrete scan
entry. -/
theorem extract_objects_tables_then_views_witness :
    ((0, ['t']) ∈ scanCreatesPos "TABLE".data
      "CREATE TABLE t (x INT);".data.length 0
      "CREATE TABLE t (x INT);".data) ∧
    (∃ rem, matchCreate "TABLE".data
        ("CREATE TABLE t (x INT);".data.drop ((0, ['t']).1 - 0)) =
      some ((0, ['t']).2, rem)) :=
  ⟨by decide, extract_objects_tables_then_views.2.2.1 "TABLE".data
    "CREATE TABLE t (x INT);".data.length 0 "CREATE TABLE t (x INT);".data
    (0, ['t']) (by decide)⟩

/-- C4 counterexample: an 8-digit date prefix does not match the naming
pattern (only 12-digit date+time prefixes do), so the claim's example files
are both skipped and discovery returns neither. -/
theorem find_migrations_8digit_counterexample :
    parse_migration_filename "20250101__a.sql" = (none, "20250101__a.sql") ∧
    (find_migrations ["20250102__b.sql", "20250101__a.sql"]).map Prod.snd ≠
      ["20250101__a.sql", "20250102__b.sql"] := by decide

/-- C4 (amended): discovery accepts exactly the globbed `.sql` files whose
name is a 12-digit date+time prefix, `__`, a description and `.sql`
(8-digit date-only prefixes are skipped with a warning like any other
non-matching file, not an error), and returns them sorted ascending by
`(orderKey, name)` independent of the filesystem listing order; in
particular `202501010000__a.sql` and `202501020000__b.sql` supplied in
reverse order come back with `a` before `b`. -/
theorem find_migrations_spec :
    (∀ l₁ l₂ : List String, l₁.Perm l₂ →
        find_migrations l₁ = find_migrations l₂) ∧
    (∀ files : List String, List.Sorted migLe (find_migrations files)) ∧
    (∀ files : List String,
        (find_migrations files).Perm
          ((globSql files).filterMap (fun f =>
            match parse_migration_filename f with
            | (some d, _) => some (d, f)
            | (none, _) => none))) ∧
    (∀ (files : List String) (p : String × String),
        p ∈ find_migrations files →
        (parse_migration_filename p.2).1 = some p.1) ∧
    (find_migrations ["202501020000__b.sql", "202501010000__a.sql"]).map
        Prod.snd =
      ["202501010000__a.sql", "202501020000__b.sql"] := by
  have hperm : ∀ files : List String,
      (find_migrations files).Perm
        ((globSql files).filterMap (fun f =>
          match parse_migration_filename f with
          | (some d, _) => some (d, f)
          | (none, _) => none)) := by
    intro files
    exact (List.perm_insertionSort migLe _).trans
      ((List.perm_insertionSort strLe (globSql files)).filterMap _)
  refine ⟨?_, ?_, hperm, ?_, by decide⟩
  · intro l₁ l₂ h
    have hg : (globSql l₁).Perm (globSql l₂) := h.filter _
    have hs : List.insertionSort strLe (globSql l₁) =
        List.insertionSort strLe (globSql l₂) :=
      List.eq_of_perm_of_sorted
        ((List.perm_insertionSort strLe _).trans
          (hg.trans (List.perm_insertionSort strLe _).symm))
        (List.sorted_insertionSort strLe _)
        (List.sorted_insertionSort strLe _)
    unfold find_migrations
    rw [hs]
  · intro files
    exact List.sorted_insertionSort migLe _
  · intro files p hp
    have hp' := (hperm files).mem_iff.mp hp
    rcases List.mem_filterMap.mp hp' with ⟨f, _, hf⟩
    rcases hparse : parse_migration_filename f with ⟨od, desc⟩
    rw [hparse] at hf
    cases od with
    | none => simp at hf
    | some d =>
      simp only [Option.some.injEq] at hf
      rw [← hf]
      simpa using congrArg Prod.fst hparse

/-- Witness for `find_migrations_spec` at a concrete permutation. -/
theorem find_migrations_spec_witness :
    (["202501010000__a.sql", "202501020000__b.sql"] : List String).Perm
      ["202501020000__b.sql", "202501010000__a.sql"] ∧
    find_migrations ["202501010000__a.sql", "202501020000__b.sql"] =
      find_migrations ["202501020000__b.sql", "202501010000__a.sql"] :=
  ⟨by decide, find_migrations_spec.1 _ _ (by decide)⟩

/-- In dry-run mode `execute_sql` never fails, so the statement loop always
succeeds. -/
theorem runStatements_dry (env : Env) (h : env.dryRun = true) :
    ∀ stmts : List String, runStatements env stmts = Except.ok ()
  | [] => rfl
  | s :: rest => by
    rw [runStatements]
    cases cleanStatement s with
    | none => exact runStatements_dry env h rest
    | some c =>
      simp only [execute_sql, h, if_true]
      exact runStatements_dry env h rest

/-- A failing statement loop implies a real (non-dry) run. -/
theorem runStatements_err_not_dry (env : Env) (e : String) :
    ∀ stmts : List String,
      runStatements env stmts = Except.error e → env.dryRun = false
  | [], h => by simp [runStatements] at h
  | s :: rest, h => by
    rw [runStatements] at h
    cases hcs : cleanStatement s with
    | none =>
      simp only [hcs] at h
      exact runStatements_err_not_dry env e rest h
    | some c =>
      simp only [hcs] at h
      by_cases hdry : env.dryRun
      · rw [show execute_sql env c = Except.ok () from by
          simp [execute_sql, hdry]] at h
        simp only [] at h
        exact runStatements_err_not_dry env e rest h
      · exact eq_false_of_ne_true hdry

/-- In dry-run mode `deployGo` skips nothing (the snapshot is empty), runs
everything without effect, and never fails. -/
theorem deployGo_dry (env : Env) (content : String → String)
    (h : env.dryRun = true) :
    ∀ (migs : List (String × String)) (ledger : Ledger) (acc : List String),
      deployGo env (fun _ => none) content migs ledger acc =
        ⟨ledger, acc ++ migs.map Prod.snd, none⟩
  | [], ledger, acc => by simp [deployGo]
  | (d, name) :: rest, ledger, acc => by
    rw [deployGo]
    rw [if_neg (by simp [migSkip])]
    rw [runStatements_dry env h]
    rw [h]
    simp only [if_true]
    rw [deployGo_dry env content h rest ledger (acc ++ [name])]
    simp

/-- C9 (amended): in dry-run mode `deploy` performs no ledger write and no
failure is possible, and discovery still runs; but the ledger read is
skipped (no connection is made and the snapshot of successful rows stays
empty), so every discovered migration is reported as pending regardless of
the ledger's contents, rather than exactly those a real run would execute. -/
theorem deploy_dry_run (env : Env) (content : String → String)
    (ledger : Ledger) (files : List String) (h : env.dryRun = true) :
    (deploy env content ledger files).ledger = ledger ∧
    (deploy env content ledger files).executed =
      (find_migrations files).map Prod.snd ∧
    (deploy env content ledger files).err = none := by
  unfold deploy
  rw [show execute_sql env (createSchemaSql env.schema) = Except.ok () from by
    simp [execute_sql, h]]
  rw [h]
  simp only [if_true]
  rw [deployGo_dry env content h (find_migrations files) ledger []]
  exact ⟨rfl, by simp, rfl⟩

/-- Witness for `deploy_dry_run` at a concrete input. -/
theorem deploy_dry_run_witness :
    (Env.dryRun ⟨"sec_raw", "u", 0, 0, fun s => s, fun _ => Except.ok (),
        true⟩ = true) ∧
    ((deploy ⟨"sec_raw", "u", 0, 0, fun s => s, fun _ => Except.ok (), true⟩
        (fun _ => "SELECT 1;") (fun _ => none)
        ["202501010000__a.sql"]).executed =
      (find_migrations ["202501010000__a.sql"]).map Prod.snd) :=
  ⟨rfl, (deploy_dry_run _ (fun _ => "SELECT 1;") (fun _ => none)
    ["202501010000__a.sql"] rfl).2.1⟩

/-- C9 counterexample: with a ledger already holding a matching successful
record for the only script, a dry run reports it as pending while a real run
executes nothing, so the dry-run pending set differs from the real run's
executed set. -/
theorem deploy_dry_run_counterexample :
    (deploy ⟨"sec_raw", "u", 0, 0, fun s => s, fun _ => Except.ok (), true⟩
        (fun _ => "SELECT 1;")
        (fun n => if n = "202501010000__a.sql" then
          some ⟨"SELECT 1;", 0, "u", 0, true, none⟩ else none)
        ["202501010000__a.sql"]).executed = ["202501010000__a.sql"] ∧
    (deploy ⟨"sec_raw", "u", 0, 0, fun s => s, fun _ => Except.ok (), false⟩
        (fun _ => "SELECT 1;")
        (fun n => if n = "202501010000__a.sql" then
          some ⟨"SELECT 1;", 0, "u", 0, true, none⟩ else none)
        ["202501010000__a.sql"]).executed = [] := by
  exact ⟨by decide, by decide⟩

/-- C10: `deploy_one` selects the pending migration by name membership only,
never by checksum: whenever every discovered migration name has a
`success = TRUE` ledger row, it executes nothing, writes nothing to the
ledger, and reports that all migrations are up to date — even when a
recorded checksum differs from the current script's checksum. -/
theorem deploy_one_membership_only (env : Env) (content : String → String)
    (ledger : Ledger) (files : List String)
    (hdry : env.dryRun = false)
    (hschema : env.execStmt (createSchemaSql env.schema) = Except.ok ())
    (hall : ∀ p ∈ find_migrations files,
      (get_executed_migrations ledger p.2).isSome = true) :
    deploy_one env content ledger files = ⟨ledger, none, true, none⟩ := by
  unfold deploy_one
  rw [show execute_sql env (createSchemaSql env.schema) = Except.ok () from by
    simp [execute_sql, hdry, hschema]]
  rw [show get_next_pending_migration env ledger files = none from by
    unfold get_next_pending_migration
    rw [hdry]
    simp only [Bool.false_eq_true, if_false]
    rw [List.find?_eq_none]
    intro p hp
    simp [Option.isNone_iff_eq_none, ← Option.not_isSome_iff_eq_none,
      hall p hp]]

/-- Witness for `deploy_one_membership_only`: a drifted checksum (`"OLD"` is
not the checksum of the current text) is still reported as up to date. -/
theorem deploy_one_membership_only_witness :
    ((⟨"sec_raw", "u", 0, 0, fun s => s, fun _ => Except.ok (),
        false⟩ : Env).dryRun = false) ∧
    ((⟨"sec_raw", "u", 0, 0, fun s => s, fun _ => Except.ok (),
        false⟩ : Env).execStmt (createSchemaSql "sec_raw") = Except.ok ()) ∧
    (∀ p ∈ find_migrations ["202501010000__a.sql"],
      (get_executed_migrations
        (fun n => if n = "202501010000__a.sql" then
          some ⟨"OLD", 0, "u", 0, true, none⟩ else none) p.2).isSome =
        true) ∧
    deploy_one ⟨"sec_raw", "u", 0, 0, fun s => s, fun _ => Except.ok (),
        false⟩
      (fun _ => "SELECT 1;")
      (fun n => if n = "202501010000__a.sql" then
        some ⟨"OLD", 0, "u", 0, true, none⟩ else none)
      ["202501010000__a.sql"] =
      ⟨(fun n => if n = "202501010000__a.sql" then
          some ⟨"OLD", 0, "u", 0, true, none⟩ else none), none, true,
        none⟩ :=
  ⟨rfl, rfl, by decide,
    deploy_one_membership_only _ _ _ _ rfl rfl (by decide)⟩

/-- C8 counterexample: with a successful ledger record for the migration and
its script file absent, `rollback_migration` completes normally (it logs an
error and returns: no exception propagates) and the CLI exits `0`, contrary
to the claimed hard failure; no drop is attempted and the record is kept. -/
theorem rollback_missing_file_counterexample :
    rollback_migration
        ⟨"sec_raw", "u", 0, 0, fun s => s, fun _ => Except.ok (), false⟩
        (fun _ => none)
        (fun n => if n = "202501010000__a.sql" then
          some ⟨"SELECT 1;", 0, "u", 0, true, none⟩ else none)
        "202501010000__a.sql" =
      Except.ok
        ⟨(fun n => if n = "202501010000__a.sql" then
            some ⟨"SELECT 1;", 0, "u", 0, true, none⟩ else none),
          [], false, true⟩ ∧
    mainRollbackExitCode
        ⟨"sec_raw", "u", 0, 0, fun s => s, fun _ => Except.ok (), false⟩
        (fun _ => none)
        (fun n => if n = "202501010000__a.sql" then
          some ⟨"SELECT 1;", 0, "u", 0, true, none⟩ else none)
        "202501010000__a.sql" = 0 :=
  ⟨rfl, rfl⟩

/-- C8 (amended): `rollback(name)` invoked for a migration with a
`success = TRUE` ledger record whose script file is absent performs no object
drop and does not delete the ledger record, but it does not propagate a
failure: it logs the missing-file error and returns normally, and the CLI
exit code is `0`. -/
theorem rollback_missing_file (env : Env) (fs : String → Option String)
    (ledger : Ledger) (nm : String) (r : MigRecord)
    (hdry : env.dryRun = false) (hrec : ledger nm = some r)
    (hsucc : r.success = true) (hfs : fs nm = none) :
    rollback_migration env fs ledger nm =
      Except.ok ⟨ledger, [], false, true⟩ ∧
    mainRollbackExitCode env fs ledger nm = 0 := by
  have h : rollback_migration env fs ledger nm =
      Except.ok ⟨ledger, [], false, true⟩ := by
    unfold rollback_migration
    rw [hdry]
    simp only [Bool.false_eq_true, if_false]
    rw [show get_executed_migrations ledger nm = some r from by
      simp [get_executed_migrations, hrec, hsucc]]
    rw [hfs]
  exact ⟨h, by rw [mainRollbackExitCode, h]⟩

/-- Witness for `rollback_missing_file` at a concrete input. -/
theorem rollback_missing_file_witness :
    ((⟨"sec_raw", "u", 0, 0, fun s => s, fun _ => Except.ok (),
        false⟩ : Env).dryRun = false) ∧
    ((fun n => if n = "m.sql" then
        some (⟨"c", 0, "u", 0, true, none⟩ : MigRecord) else none) "m.sql" =
      some ⟨"c", 0, "u", 0, true, none⟩) ∧
    ((⟨"c", 0, "u", 0, true, none⟩ : MigRecord).success = true) ∧
    ((fun _ => (none : Option String)) "m.sql" = none) ∧
    mainRollbackExitCode
      ⟨"sec_raw", "u", 0, 0, fun s => s, fun _ => Except.ok (), false⟩
      (fun _ => none)
      (fun n => if n = "m.sql" then
        some ⟨"c", 0, "u", 0, true, none⟩ else none) "m.sql" = 0 :=
  ⟨rfl, by decide, rfl, rfl,
    (rollback_missing_file _ _ _ "m.sql" ⟨"c", 0, "u", 0, true, none⟩
      rfl (by decide) rfl rfl).2⟩

/-- A prefix of migrations whose successful rows all match the current
checksums is skipped entirely. -/
theorem deployGo_skipRun (env : Env) (em : String → Option MigRecord)
    (content : String → String) :
    ∀ (migsB rest : List (String × String)) (ledger : Ledger)
      (acc : List String),
      (∀ p ∈ migsB, ∃ r, em p.2 = some r ∧
        env.checksum (migSql env content p.2) = r.checksum) →
      deployGo env em content (migsB ++ rest) ledger acc =
        deployGo env em content rest ledger acc
  | [], rest, ledger, acc, _ => by simp
  | (d, nm) :: migsB, rest, ledger, acc, h => by
    rw [List.cons_append, deployGo]
    rw [if_pos (by
      rcases h (d, nm) (List.mem_cons_self _ _) with ⟨r, hr, hcs⟩
      simp [migSkip, hr, hcs])]
    exact deployGo_skipRun env em content migsB rest ledger acc
      (fun p hp => h p (List.mem_cons_of_mem _ hp))

/-- When no migration of the batch has a successful row and the whole run
succeeds, every migration is executed in order and gets a fresh successful
row with the checksum of its current text; other rows are untouched. -/
theorem deployGo_all_pending (env : Env) (em : String → Option MigRecord)
    (content : String → String) (hdry : env.dryRun = false) :
    ∀ (migs : List (String × String)) (ledger : Ledger) (acc : List String),
      (∀ p ∈ migs, em p.2 = none) →
      (deployGo env em content migs ledger acc).err = none →
      (deployGo env em content migs ledger acc).executed =
        acc ++ migs.map Prod.snd ∧
      ∀ n, (deployGo env em content migs ledger acc).ledger n =
        if n ∈ migs.map Prod.snd
        then some (successRecord env (env.checksum (migSql env content n)))
        else ledger n
  | [], ledger, acc, _, _ => by
    refine ⟨by simp [deployGo], fun n => by simp [deployGo]⟩
  | (d, nm) :: migs, ledger, acc, hpend, herr => by
    have hskip : ¬ migSkip env em content nm = true := by
      simp [migSkip, hpend (d, nm) (List.mem_cons_self _ _)]
    rw [deployGo, if_neg hskip] at herr ⊢
    cases hrun : runStatements env
        (split_sql_statements (migSql env content nm)) with
    | error e =>
      rw [hrun] at herr
      simp at herr
    | ok u =>
      rw [hrun] at herr
      simp only [hdry, Bool.false_eq_true, if_false] at herr ⊢
      have IH := deployGo_all_pending env em content hdry migs
        (record_migration env ledger nm
          (env.checksum (migSql env content nm)) true none)
        (acc ++ [nm])
        (fun p hp => hpend p (List.mem_cons_of_mem _ hp)) herr
      refine ⟨by rw [IH.1]; simp, fun n => ?_⟩
      rw [IH.2 n]
      by_cases hn : n ∈ migs.map Prod.snd
      · rw [if_pos hn, if_pos (by simp [hn])]
      · rw [if_neg hn]
        by_cases hn2 : n = nm
        · subst hn2
          rw [if_pos (by simp)]
          simp [record_migration, successRecord]
        · rw [if_neg (by simp [hn, hn2])]
          simp [record_migration, hn2]

/-- In a real run whose schema-creation statement succeeds, `deploy` is the
migration loop over the discovered scripts with the snapshot of successful
rows. -/
theorem deploy_eq_go (env : Env) (content : String → String)
    (ledger : Ledger) (files : List String)
    (hdry : env.dryRun = false)
    (hok : env.execStmt (createSchemaSql env.schema) = Except.ok ()) :
    deploy env content ledger files =
      deployGo env (get_executed_migrations ledger) content
        (find_migrations files) ledger [] := by
  unfold deploy
  rw [show execute_sql env (createSchemaSql env.schema) = Except.ok () from by
    simp [execute_sql, hdry, hok]]
  rw [hdry]
  simp

/-- A real `deploy` run that reports no error had its schema-creation
statement succeed. -/
theorem deploy_err_none_schema_ok (env : Env) (content : String → String)
    (ledger : Ledger) (files : List String)
    (hdry : env.dryRun = false)
    (h : (deploy env content ledger files).err = none) :
    env.execStmt (createSchemaSql env.schema) = Except.ok () := by
  cases hcs : env.execStmt (createSchemaSql env.schema) with
  | ok a => cases a; rfl
  | error e =>
    unfold deploy at h
    rw [show execute_sql env (createSchemaSql env.schema) =
        Except.error e from by simp [execute_sql, hdry, hcs]] at h
    simp at h

/-- C2: starting from an empty ledger, a successful `deploy` run executes
every one of the N discovered migrations, and an immediately repeated run on
the same unmodified script set executes 0 migrations (each is skipped
because its recorded checksum matches the recomputed checksum of its
current text). -/
theorem deploy_idempotent (env : Env) (content : String → String)
    (files : List String)
    (hdry : env.dryRun = false)
    (h1 : (deploy env content (fun _ => none) files).err = none) :
    (deploy env content (fun _ => none) files).executed.length =
      (find_migrations files).length ∧
    (deploy env content
        ((deploy env content (fun _ => none) files).ledger) files).executed =
      [] ∧
    (deploy env content
        ((deploy env content (fun _ => none) files).ledger) files).err =
      none := by
  have hok := deploy_err_none_schema_ok env content (fun _ => none) files
    hdry h1
  have hd1 : deploy env content (fun _ => none) files =
      deployGo env (get_executed_migrations (fun _ => none)) content
        (find_migrations files) (fun _ => none) [] :=
    deploy_eq_go env content _ files hdry hok
  rw [hd1] at h1
  have hAll := deployGo_all_pending env
    (get_executed_migrations (fun _ => none)) content hdry
    (find_migrations files) (fun _ => none) [] (fun p _ => rfl) h1
  have hmatch : ∀ p ∈ find_migrations files,
      ∃ r, get_executed_migrations
          ((deployGo env (get_executed_migrations (fun _ => none)) content
            (find_migrations files) (fun _ => none) []).ledger) p.2 =
          some r ∧
        env.checksum (migSql env content p.2) = r.checksum := by
    intro p hp
    have hl := hAll.2 p.2
    rw [if_pos (List.mem_map_of_mem _ hp)] at hl
    exact ⟨successRecord env (env.checksum (migSql env content p.2)),
      by simp [get_executed_migrations, hl, successRecord], rfl⟩
  have hskip := deployGo_skipRun env
    (get_executed_migrations
      ((deployGo env (get_executed_migrations (fun _ => none)) content
        (find_migrations files) (fun _ => none) []).ledger)) content
    (find_migrations files) []
    ((deployGo env (get_executed_migrations (fun _ => none)) content
      (find_migrations files) (fun _ => none) []).ledger) [] hmatch
  rw [List.append_nil] at hskip
  have hd2 := deploy_eq_go env content
    ((deployGo env (get_executed_migrations (fun _ => none)) content
      (find_migrations files) (fun _ => none) []).ledger) files hdry hok
  refine ⟨by rw [hd1, hAll.1]; simp, ?_, ?_⟩
  · rw [hd1, hd2, hskip]
    rfl
  · rw [hd1, hd2, hskip]
    rfl

/-- Witness for `deploy_idempotent` at a concrete two-script set. -/
theorem deploy_idempotent_witness :
    ((⟨"sec_raw", "u", 0, 0, fun s => s, fun _ => Except.ok (),
        false⟩ : Env).dryRun = false) ∧
    ((deploy ⟨"sec_raw", "u", 0, 0, fun s => s, fun _ => Except.ok (), false⟩
        (fun n => if n = "202501010000__a.sql" then "SELECT 1;"
          else "SELECT 2;")
        (fun _ => none)
        ["202501010000__a.sql", "202501020000__b.sql"]).err = none) ∧
    (deploy ⟨"sec_raw", "u", 0, 0, fun s => s, fun _ => Except.ok (), false⟩
        (fun n => if n = "202501010000__a.sql" then "SELECT 1;"
          else "SELECT 2;")
        ((deploy ⟨"sec_raw", "u", 0, 0, fun s => s, fun _ => Except.ok (),
            false⟩
          (fun n => if n = "202501010000__a.sql" then "SELECT 1;"
            else "SELECT 2;")
          (fun _ => none)
          ["202501010000__a.sql", "202501020000__b.sql"]).ledger)
        ["202501010000__a.sql", "202501020000__b.sql"]).executed = [] :=
  ⟨rfl, by decide,
    (deploy_idempotent _ _ _ rfl (by decide)).2.1⟩

/-- C3: after a fully successful `deploy` run from an empty ledger, mutating
the text of exactly one discovered script and running `deploy` again
re-executes exactly that script (its recorded checksum no longer matches)
and leaves the ledger rows of every other migration unchanged. -/
theorem deploy_drift (env : Env) (content : String → String)
    (files : List String) (target newText : String)
    (hdry : env.dryRun = false)
    (hnodup : ((find_migrations files).map Prod.snd).Nodup)
    (htarget : target ∈ (find_migrations files).map Prod.snd)
    (h1 : (deploy env content (fun _ => none) files).err = none)
    (hcs : env.checksum (read_sql_file env.schema newText) ≠
      env.checksum (read_sql_file env.schema (content target))) :
    (deploy env (fun n => if n = target then newText else content n)
        ((deploy env content (fun _ => none) files).ledger) files).executed =
      [target] ∧
    ∀ n, n ≠ target →
      (deploy env (fun n => if n = target then newText else content n)
          ((deploy env content (fun _ => none) files).ledger) files).ledger
          n =
        (deploy env content (fun _ => none) files).ledger n := by
  have hok := deploy_err_none_schema_ok env content (fun _ => none) files
    hdry h1
  have hd1 : deploy env content (fun _ => none) files =
      deployGo env (get_executed_migrations (fun _ => none)) content
        (find_migrations files) (fun _ => none) [] :=
    deploy_eq_go env content _ files hdry hok
  rw [hd1] at h1
  have hAll := deployGo_all_pending env
    (get_executed_migrations (fun _ => none)) content hdry
    (find_migrations files) (fun _ => none) [] (fun p _ => rfl) h1
  rw [hd1]
  set L1 := (deployGo env (get_executed_migrations (fun _ => none)) content
    (find_migrations files) (fun _ => none) []).ledger with hL1
  have hL1mem : ∀ n ∈ (find_migrations files).map Prod.snd,
      L1 n = some (successRecord env (env.checksum (migSql env content n))) := by
    intro n hn
    rw [hAll.2 n, if_pos hn]
  have hd2 := deploy_eq_go env
    (fun n => if n = target then newText else content n) L1 files hdry hok
  rw [hd2]
  rcases List.mem_map.mp htarget with ⟨p, hpmem, hp2⟩
  rcases List.append_of_mem hpmem with ⟨s, t, hsplit⟩
  rcases p with ⟨pd, pn⟩
  simp only at hp2
  subst hp2
  have hnames : (find_migrations files).map Prod.snd =
      s.map Prod.snd ++ pn :: t.map Prod.snd := by
    rw [hsplit]; simp
  rw [hnames] at hnodup
  have hdisj := List.disjoint_of_nodup_append hnodup
  have hpnA : pn ∉ s.map Prod.snd := fun h =>
    hdisj h (List.mem_cons_self _ _)
  have hpnB : pn ∉ t.map Prod.snd :=
    (List.nodup_cons.mp ((List.nodup_append.mp hnodup).2.1)).1
  -- migrations other than the target read the same text and match their rows
  have hother : ∀ (q : String × String), q ∈ s ∨ q ∈ t →
      ∃ r, get_executed_migrations L1 q.2 = some r ∧
        env.checksum (migSql env
          (fun n => if n = pn then newText else content n) q.2) =
          r.checksum := by
    intro q hq
    have hq2ne : q.2 ≠ pn := by
      intro h
      rcases hq with hq | hq
      · exact hpnA (h ▸ List.mem_map_of_mem Prod.snd hq)
      · exact hpnB (h ▸ List.mem_map_of_mem Prod.snd hq)
    have hqmem : q.2 ∈ (find_migrations files).map Prod.snd := by
      rw [hnames]
      rcases hq with hq | hq
      · exact List.mem_append.mpr (Or.inl (List.mem_map_of_mem _ hq))
      · exact List.mem_append.mpr (Or.inr
          (List.mem_cons_of_mem _ (List.mem_map_of_mem _ hq)))
    refine ⟨successRecord env (env.checksum (migSql env content q.2)), ?_, ?_⟩
    · simp [get_executed_migrations, hL1mem q.2 hqmem, successRecord]
    · simp [migSql, hq2ne, successRecord]
  rw [hsplit]
  rw [deployGo_skipRun env (get_executed_migrations L1)
    (fun n => if n = pn then newText else content n) s _ L1 []
    (fun q hq => hother q (Or.inl hq))]
  have hpnmem : pn ∈ (find_migrations files).map Prod.snd := by
    rw [hnames]
    exact List.mem_append.mpr (Or.inr (List.mem_cons_self _ _))
  have hrec := hL1mem pn hpnmem
  rw [deployGo]
  rw [if_neg (by
    simp [migSkip, get_executed_migrations, hrec, successRecord, migSql,
      hcs])]
  cases hrun : runStatements env (split_sql_statements (migSql env
      (fun n => if n = pn then newText else content n) pn)) with
  | ok u =>
    simp only [hdry, Bool.false_eq_true, if_false]
    have hskipT := deployGo_skipRun env (get_executed_migrations L1)
      (fun n => if n = pn then newText else content n) t []
      (record_migration env L1 pn
        (env.checksum (migSql env
          (fun n => if n = pn then newText else content n) pn)) true none)
      ([] ++ [pn]) (fun q hq => hother q (Or.inr hq))
    rw [List.append_nil] at hskipT
    rw [hskipT]
    refine ⟨rfl, fun n hn => ?_⟩
    simp [deployGo, record_migration, hn]
  | error e =>
    simp only [hdry, Bool.false_eq_true, if_false]
    refine ⟨rfl, fun n hn => ?_⟩
    simp [record_migration, hn]

/-- Witness for `deploy_drift`: mutating the first of two deployed scripts
re-executes exactly that one. -/
theorem deploy_drift_witness :
    ((⟨"sec_raw", "u", 0, 0, fun s => s, fun _ => Except.ok (),
        false⟩ : Env).dryRun = false) ∧
    ((find_migrations
        ["202501010000__a.sql", "202501020000__b.sql"]).map Prod.snd).Nodup ∧
    ("202501010000__a.sql" ∈ (find_migrations
        ["202501010000__a.sql", "202501020000__b.sql"]).map Prod.snd) ∧
    ((deploy ⟨"sec_raw", "u", 0, 0, fun s => s, fun _ => Except.ok (), false⟩
        (fun n => if n = "202501010000__a.sql" then "SELECT 1;"
          else "SELECT 2;")
        (fun _ => none)
        ["202501010000__a.sql", "202501020000__b.sql"]).err = none) ∧
    ((fun s => s) (read_sql_file "sec_raw" "SELECT 9;") ≠
      (fun s => s) (read_sql_file "sec_raw"
        ((fun n => if n = "202501010000__a.sql" then "SELECT 1;"
          else "SELECT 2;") "202501010000__a.sql"))) ∧
    (deploy ⟨"sec_raw", "u", 0, 0, fun s => s, fun _ => Except.ok (), false⟩
        (fun n => if n = "202501010000__a.sql" then "SELECT 9;"
          else (fun n => if n = "202501010000__a.sql" then "SELECT 1;"
            else "SELECT 2;") n)
        ((deploy ⟨"sec_raw", "u", 0, 0, fun s => s, fun _ => Except.ok (),
            false⟩
          (fun n => if n = "202501010000__a.sql" then "SELECT 1;"
            else "SELECT 2;")
          (fun _ => none)
          ["202501010000__a.sql", "202501020000__b.sql"]).ledger)
        ["202501010000__a.sql", "202501020000__b.sql"]).executed =
      ["202501010000__a.sql"] :=
  ⟨rfl, by decide, by decide, by decide, by decide,
    (deploy_drift ⟨"sec_raw", "u", 0, 0, fun s => s, fun _ => Except.ok (),
        false⟩
      (fun n => if n = "202501010000__a.sql" then "SELECT 1;"
        else "SELECT 2;")
      ["202501010000__a.sql", "202501020000__b.sql"]
      "202501010000__a.sql" "SELECT 9;"
      rfl (by decide) (by decide) (by decide) (by decide)).1⟩

/-- A failing `deployGo` run is a real (non-dry) run. -/
theorem deployGo_err_not_dry (env : Env) (em : String → Option MigRecord)
    (content : String → String) :
    ∀ (migs : List (String × String)) (ledger : Ledger) (acc : List String)
      (e : String),
      (deployGo env em content migs ledger acc).err = some e →
      env.dryRun = false
  | [], ledger, acc, e, h => by simp [deployGo] at h
  | (d, nm) :: migs, ledger, acc, e, h => by
    rw [deployGo] at h
    by_cases hskip : migSkip env em content nm = true
    · rw [if_pos hskip] at h
      exact deployGo_err_not_dry env em content migs ledger acc e h
    · rw [if_neg hskip] at h
      cases hrun : runStatements env
          (split_sql_statements (migSql env content nm)) with
      | ok u =>
        rw [hrun] at h
        exact deployGo_err_not_dry env em content migs _ _ e h
      | error e' =>
        exact runStatements_err_not_dry env e' _ hrun

/-- A failing `deploy` run is a real (non-dry) run. -/
theorem deploy_err_not_dry (env : Env) (content : String → String)
    (ledger : Ledger) (files : List String) (e : String)
    (h : (deploy env content ledger files).err = some e) :
    env.dryRun = false := by
  by_cases hdry : env.dryRun
  · unfold deploy at h
    rw [show execute_sql env (createSchemaSql env.schema) = Except.ok ()
      from by simp [execute_sql, hdry]] at h
    rw [hdry] at h
    simp only [if_true] at h
    rw [deployGo_dry env content hdry (find_migrations files) ledger []] at h
    simp at h
  · exact eq_false_of_ne_true hdry

/-- A real `deploy` run that attempted at least one migration had its
schema-creation statement succeed. -/
theorem deploy_exec_ne_nil_schema_ok (env : Env) (content : String → String)
    (ledger : Ledger) (files : List String)
    (hdry : env.dryRun = false)
    (hex : (deploy env content ledger files).executed ≠ []) :
    env.execStmt (createSchemaSql env.schema) = Except.ok () := by
  cases hcs : env.execStmt (createSchemaSql env.schema) with
  | ok a => cases a; rfl
  | error e =>
    unfold deploy at hex
    rw [show execute_sql env (createSchemaSql env.schema) = Except.error e
      from by simp [execute_sql, hdry, hcs]] at hex
    simp at hex

/-- The failure anatomy of the migration loop: when it reports an error, the
batch splits at a failing migration that carries a fresh `success = FALSE`
row with the error message, everything executed before it carries a fresh
`success = TRUE` row, and nothing after it was attempted or touched. -/
theorem deployGo_err_spec (env : Env) (em : String → Option MigRecord)
    (content : String → String) (hdry : env.dryRun = false) :
    ∀ (migs : List (String × String)) (ledger : Ledger) (acc : List String)
      (e : String),
      (migs.map Prod.snd).Nodup →
      (∀ n ∈ acc, ∃ r, ledger n = some r ∧ r.success = true ∧
        r.error_message = none) →
      (∀ n ∈ acc, n ∉ migs.map Prod.snd) →
      (deployGo env em content migs ledger acc).err = some e →
      ∃ before fail after exb,
        migs.map Prod.snd = before ++ fail :: after ∧
        (deployGo env em content migs ledger acc).executed =
          acc ++ exb ++ [fail] ∧
        (∀ n ∈ exb, n ∈ before) ∧
        (deployGo env em content migs ledger acc).ledger fail =
          some (failureRecord env
            (env.checksum (migSql env content fail)) e) ∧
        (∀ n, n ∈ acc ∨ n ∈ exb →
          ∃ r, (deployGo env em content migs ledger acc).ledger n = some r ∧
            r.success = true ∧ r.error_message = none) ∧
        (∀ n ∈ after,
          n ∉ (deployGo env em content migs ledger acc).executed ∧
          (deployGo env em content migs ledger acc).ledger n = ledger n)
  | [], ledger, acc, e, _, _, _, h => by simp [deployGo] at h
  | (d, nm) :: migs, ledger, acc, e, hnodup, hacc, hdisj, h => by
    have hnodup' : (migs.map Prod.snd).Nodup := by
      simp only [List.map_cons] at hnodup
      exact hnodup.of_cons
    have hnmnotin : nm ∉ migs.map Prod.snd := by
      simp only [List.map_cons, List.nodup_cons] at hnodup
      exact hnodup.1
    by_cases hskip : migSkip env em content nm = true
    · have hstep : deployGo env em content ((d, nm) :: migs) ledger acc =
          deployGo env em content migs ledger acc := by
        rw [deployGo, if_pos hskip]
      rw [hstep] at h ⊢
      obtain ⟨before, fail, after, exb, h1, h2, h3, h4, h5, h6⟩ :=
        deployGo_err_spec env em content hdry migs ledger acc e hnodup' hacc
          (fun n hn hmem => hdisj n hn (by
            simp only [List.map_cons]
            exact List.mem_cons_of_mem _ hmem)) h
      refine ⟨nm :: before, fail, after, exb, ?_, h2,
        fun n hn => List.mem_cons_of_mem _ (h3 n hn), h4, h5, h6⟩
      simp only [List.map_cons, h1, List.cons_append]
    · cases hrun : runStatements env
          (split_sql_statements (migSql env content nm)) with
      | ok u =>
        have hstep : deployGo env em content ((d, nm) :: migs) ledger acc =
            deployGo env em content migs
              (record_migration env ledger nm
                (env.checksum (migSql env content nm)) true none)
              (acc ++ [nm]) := by
          rw [deployGo, if_neg hskip, hrun]
          simp [hdry]
        rw [hstep] at h ⊢
        obtain ⟨before, fail, after, exb, h1, h2, h3, h4, h5, h6⟩ :=
          deployGo_err_spec env em content hdry migs
            (record_migration env ledger nm
              (env.checksum (migSql env content nm)) true none)
            (acc ++ [nm]) e hnodup'
            (by
              intro n hn
              rcases List.mem_append.mp hn with hn | hn
              · have hne : n ≠ nm := by
                  intro hEq
                  exact hdisj n hn (by simp [hEq])
                rcases hacc n hn with ⟨r, hr, hs, hm⟩
                exact ⟨r, by simp [record_migration, hne, hr], hs, hm⟩
              · rw [List.mem_singleton.mp hn]
                exact ⟨successRecord env
                    (env.checksum (migSql env content nm)),
                  by simp [record_migration, successRecord], rfl, rfl⟩)
            (by
              intro n hn
              rcases List.mem_append.mp hn with hn | hn
              · intro hmem
                exact hdisj n hn (by
                  simp only [List.map_cons]
                  exact List.mem_cons_of_mem _ hmem)
              · rw [List.mem_singleton.mp hn]
                exact hnmnotin) h
        refine ⟨nm :: before, fail, after, nm :: exb, ?_, ?_, ?_, h4, ?_, ?_⟩
        · simp only [List.map_cons, h1, List.cons_append]
        · rw [h2]
          simp
        · intro n hn
          rcases List.mem_cons.mp hn with hn | hn
          · exact hn ▸ List.mem_cons_self _ _
          · exact List.mem_cons_of_mem _ (h3 n hn)
        · intro n hn
          rcases hn with hn | hn
          · exact h5 n (Or.inl (List.mem_append.mpr (Or.inl hn)))
          · rcases List.mem_cons.mp hn with hn | hn
            · exact hn ▸ h5 nm (Or.inl (List.mem_append.mpr (Or.inr
                (List.mem_singleton.mpr rfl))))
            · exact h5 n (Or.inr hn)
        · intro n hn
          refine ⟨(h6 n hn).1, ?_⟩
          rw [(h6 n hn).2]
          have hne : n ≠ nm := by
            intro hEq
            apply hnmnotin
            rw [h1, ← hEq]
            exact List.mem_append.mpr (Or.inr (List.mem_cons_of_mem _ hn))
          simp [record_migration, hne]
      | error e' =>
        have hstep : deployGo env em content ((d, nm) :: migs) ledger acc =
            ⟨record_migration env ledger nm
                (env.checksum (migSql env content nm)) false (some e'),
              acc ++ [nm], some e'⟩ := by
          rw [deployGo, if_neg hskip, hrun]
          simp [hdry]
        rw [hstep] at h ⊢
        simp only [Option.some.injEq] at h
        subst h
        refine ⟨[], nm, migs.map Prod.snd, [], by simp, by simp,
          fun n hn => absurd hn (List.not_mem_nil n), ?_, ?_, ?_⟩
        · simp [record_migration, failureRecord]
        · intro n hn
          rcases hn with hn | hn
          · have hne : n ≠ nm := by
              intro hEq
              exact hdisj n hn (by simp [hEq])
            rcases hacc n hn with ⟨r, hr, hs, hm⟩
            exact ⟨r, by simp [record_migration, hne, hr], hs, hm⟩
          · exact absurd hn (List.not_mem_nil n)
        · intro n hn
          constructor
          · simp only [List.mem_append, List.mem_singleton]
            rintro (hmem | hEq)
            · exact hdisj n hmem (by
                simp only [List.map_cons]
                exact List.mem_cons_of_mem _ hn)
            · exact hnmnotin (hEq ▸ hn)
          · have hne : n ≠ nm := fun hEq => hnmnotin (hEq ▸ hn)
            simp [record_migration, hne]

/-- C1: in any `deploy` batch where some migration's statement fails, the
engine upserts a `success = FALSE` row with the captured error message for
the failing migration, propagates the failure (the reported error), attempts
no later migration of the batch (their rows are untouched and they are not
in the executed list), and every migration completed before the failing one
keeps a `success = TRUE` row. -/
theorem deploy_fail_fast (env : Env) (content : String → String)
    (ledger : Ledger) (files : List String) (e : String)
    (hnodup : ((find_migrations files).map Prod.snd).Nodup)
    (herr : (deploy env content ledger files).err = some e)
    (hex : (deploy env content ledger files).executed ≠ []) :
    ∃ before fail after exb,
      (find_migrations files).map Prod.snd = before ++ fail :: after ∧
      (deploy env content ledger files).executed = exb ++ [fail] ∧
      (∀ n ∈ exb, n ∈ before) ∧
      (deploy env content ledger files).ledger fail =
        some (failureRecord env
          (env.checksum (migSql env content fail)) e) ∧
      (∀ n ∈ exb,
        ∃ r, (deploy env content ledger files).ledger n = some r ∧
          r.success = true ∧ r.error_message = none) ∧
      (∀ n ∈ after,
        n ∉ (deploy env content ledger files).executed ∧
        (deploy env content ledger files).ledger n = ledger n) := by
  have hdry := deploy_err_not_dry env content ledger files e herr
  have hok := deploy_exec_ne_nil_schema_ok env content ledger files hdry hex
  have hd := deploy_eq_go env content ledger files hdry hok
  rw [hd] at herr ⊢
  obtain ⟨before, fail, after, exb, h1, h2, h3, h4, h5, h6⟩ :=
    deployGo_err_spec env (get_executed_migrations ledger) content hdry
      (find_migrations files) ledger [] e hnodup
      (fun n hn => absurd hn (List.not_mem_nil n))
      (fun n hn => absurd hn (List.not_mem_nil n)) herr
  exact ⟨before, fail, after, exb, h1, by simpa using h2, h3, h4,
    fun n hn => h5 n (Or.inr hn), h6⟩

/-- Witness for `deploy_fail_fast`: three pending migrations where the
second fails mid-statement. -/
theorem deploy_fail_fast_witness :
    ((find_migrations files3).map Prod.snd).Nodup ∧
    (deploy envBoom contentBoom (fun _ => none) files3).err = some "kaput" ∧
    (deploy envBoom contentBoom (fun _ => none) files3).executed ≠ [] ∧
    (∃ before fail after exb,
      (find_migrations files3).map Prod.snd = before ++ fail :: after ∧
      (deploy envBoom contentBoom (fun _ => none) files3).executed =
        exb ++ [fail] ∧
      (∀ n ∈ exb, n ∈ before) ∧
      (deploy envBoom contentBoom (fun _ => none) files3).ledger fail =
        some (failureRecord envBoom
          (envBoom.checksum (migSql envBoom contentBoom fail)) "kaput") ∧
      (∀ n ∈ exb,
        ∃ r, (deploy envBoom contentBoom (fun _ => none) files3).ledger n =
          some r ∧ r.success = true ∧ r.error_message = none) ∧
      (∀ n ∈ after,
        n ∉ (deploy envBoom contentBoom (fun _ => none) files3).executed ∧
        (deploy envBoom contentBoom (fun _ => none) files3).ledger n =
          (fun _ => none : Ledger) n)) :=
  ⟨by decide, by decide, by decide,
    deploy_fail_fast envBoom contentBoom (fun _ => none) files3 "kaput"
      (by decide) (by decide) (by decide)⟩
